import Mathlib

/-!
Verification of the ATSB aviation dashboard extraction-and-classification
pipeline (`atsb_dashboard.py`).

The Python source is shallowly embedded: text is modelled as Lean `String`
(a list of characters; Python's `len` on `str` and Lean's `String.length`
both count code points), Python's substring operator `needle in hay` is the
executable `occursIn` on character lists, `str.lower()` is `lowerStr`
(ASCII case folding, which covers every keyword the program matches),
`datetime` values are modelled as `Option Nat` timestamps with
`datetime.min = 0`, and the Python `dict` used for de-duplication is an
insertion-ordered association list.  Python's stable `list.sort` agrees
with `List.insertionSort` on every total preorder, which is what
`parse_listing` uses.
-/

/-- Python's `needle` being a prefix of `hay`, on character lists. -/
def headMatch : List Char → List Char → Bool
  | [], _ => true
  | _ :: _, [] => false
  | a :: as, b :: bs => a == b && headMatch as bs

/-- Python's `needle in hay` (substring containment), on character lists. -/
def occursIn (needle : List Char) : List Char → Bool
  | [] => headMatch needle []
  | hay@(_ :: t) => headMatch needle hay || occursIn needle t

/-- `str.lower()` of the source, restricted to ASCII case folding. -/
def lowerStr (s : String) : String := String.mk (s.toList.map Char.toLower)

/-- Python's `needle in hay` on strings. -/
def subStr (needle hay : String) : Bool := occursIn needle.toList hay.toList

/-- The ordered category → keyword-list mapping of `classify_cause`
(Python dicts preserve insertion order, so iteration visits pairs in
exactly this order). -/
def causeMapping : List (String × List String) :=
  [("Collision with terrain",
      ["collision with terrain", "controlled flight into terrain", "cfit"]),
   ("Near collision / airprox",
      ["near collision", "proximity event", "airprox", "midair"]),
   ("Ditching / water impact",
      ["ditching", "water"]),
   ("Mechanical / system issue",
      ["engine", "landing gear", "rotor", "foreign object", "f.o.d", "indication", "failure"]),
   ("Operational event",
      ["fuel", "runway", "navigation", "weather", "vfr", "imc"])]

/-- `any(k in t for k in kws)` of the source. -/
def matchesCat (t : String) (kws : List String) : Bool := kws.any (fun k => subStr k t)

/-- The `for label, kws in mapping.items()` loop of `classify_cause`:
first category whose keyword list matches wins, else the fallback label. -/
def firstLabel (t : String) : List (String × List String) → String
  | [] => "Other / undetermined"
  | (label, kws) :: rest => if matchesCat t kws then label else firstLabel t rest

/-- `classify_cause` of the source. -/
def classify_cause (text : String) : String :=
  firstLabel (lowerStr text) causeMapping

/-- `classify_severity` of the source, including its redundant
`"sustained fatal injuries" in t` disjunct (`t = text.lower()` is
inlined). -/
def classify_severity (text : String) : String :=
  if subStr "fatal" (lowerStr text) || subStr "sustained fatal injuries" (lowerStr text) then
    "Fatal"
  else if subStr "serious injury" (lowerStr text) then "Serious injury"
  else if subStr "minor injury" (lowerStr text) || subStr "injur" (lowerStr text) then "Injury"
  else if subStr "no injuries" (lowerStr text) || subStr "no injury" (lowerStr text) then
    "No injury"
  else "Unknown"

/-- The severity cascade exactly as the specification words it: the first
check is on the single substring "fatal". -/
def severitySpec (text : String) : String :=
  if subStr "fatal" (lowerStr text) then "Fatal"
  else if subStr "serious injury" (lowerStr text) then "Serious injury"
  else if subStr "minor injury" (lowerStr text) || subStr "injur" (lowerStr text) then "Injury"
  else if subStr "no injuries" (lowerStr text) || subStr "no injury" (lowerStr text) then
    "No injury"
  else "Unknown"

/-- `parse_operation_type` of the source (`t = title.lower()` is
inlined). -/
def parse_operation_type (title : String) : String :=
  if subStr "helicopter" (lowerStr title)
      || ["r44", "aw139", "bell", "s-92"].any (fun x => subStr x (lowerStr title)) then
    "Helicopter"
  else if ["airbus", "saab", "boeing", "a380"].any (fun x => subStr x (lowerStr title)) then
    "Air transport"
  else if subStr "accredited representative" (lowerStr title) then
    "International assistance"
  else
    "General aviation"

/-- One parsed listing row (`items.append({...})` in `parse_listing`).
`occurrence_date` is `none` exactly when `datetime.strptime` failed;
dates are modelled as `Nat` timestamps with `datetime.min = 0`. -/
structure ReportItem where
  report_no : String
  title : String
  report_url : String
  occurrence_date : Option Nat
  occurrence_date_text : String
  investigation_status : String
deriving DecidableEq, Repr

/-- One `dedup[k] = v` assignment on the insertion-ordered association
list modelling the Python `dict`: an existing key keeps its position and
gets the new value, a fresh key is appended. -/
def dictInsert (d : List (String × ReportItem)) (k : String) (v : ReportItem) :
    List (String × ReportItem) :=
  if d.any (fun p => p.1 == k) then
    d.map (fun p => if p.1 == k then (p.1, v) else p)
  else
    d ++ [(k, v)]

/-- The de-duplication loop of `parse_listing`:
`for it in items: dedup[it["report_no"]] = it` followed by
`list(dedup.values())`. -/
def dedupItems (items : List ReportItem) : List ReportItem :=
  (items.foldl (fun d it => dictInsert d it.report_no it) []).map Prod.snd

/-- `x["occurrence_date"] or datetime.min` of the sort key (a `datetime`
is always truthy, so `or` only replaces `None`). -/
def sortKey (it : ReportItem) : Nat := it.occurrence_date.getD 0

/-- The descending order used by `items.sort(key=..., reverse=True)`. -/
def laterFirst (a b : ReportItem) : Prop := sortKey b ≤ sortKey a

instance : DecidableRel laterFirst := fun a b => Nat.decLe (sortKey b) (sortKey a)

instance : IsTotal ReportItem laterFirst :=
  ⟨fun a b => (Nat.le_total (sortKey b) (sortKey a)).imp id id⟩

instance : IsTrans ReportItem laterFirst :=
  ⟨fun _ _ _ h1 h2 => Nat.le_trans h2 h1⟩

/-- The pure tail of `parse_listing` (everything after the per-row HTML
parsing): de-duplicate, sort by occurrence date descending, truncate.
Python's stable sort and `List.insertionSort` agree on total preorders. -/
def listingStage (items : List ReportItem) (limit : Nat) : List ReportItem :=
  (List.insertionSort laterFirst (dedupItems items)).take limit

/-- The Python `\s` class, restricted to its ASCII members, which are the
only whitespace the modelled pages contain. -/
def isSpaceCh (c : Char) : Bool :=
  c == ' ' || c == '\t' || c == '\n' || c == '\r' || c == '\x0b' || c == '\x0c'

/-- `re.sub(r"\s+", " ", s)`: every maximal whitespace run becomes one
space. -/
def squeeze : List Char → List Char
  | [] => []
  | [c] => if isSpaceCh c then [' '] else [c]
  | c :: d :: rest =>
    if isSpaceCh c then
      if isSpaceCh d then squeeze (d :: rest)
      else ' ' :: squeeze (d :: rest)
    else c :: squeeze (d :: rest)

/-- `str.strip()` after the substitution: drop leading and trailing
whitespace. -/
def stripEnds (l : List Char) : List Char :=
  ((l.dropWhile isSpaceCh).reverse.dropWhile isSpaceCh).reverse

/-- `clean` of the source: collapse whitespace runs to single spaces and
trim. -/
def clean (s : String) : String := String.mk (stripEnds (squeeze s.toList))

/-- The pure tail of `extract_summary_text`, applied to the raw paragraph
texts: normalize, keep paragraphs longer than 40 characters, take 4, join
with a blank line. -/
def extract_summary_text (paragraphs : List String) : String :=
  String.intercalate "\n\n" (((paragraphs.map clean).filter (fun p => 40 < p.length)).take 4)

/-- The excerpt selection as the specification words it: walk the
paragraphs in source order, keep a normalized paragraph only when it is
strictly longer than 40 characters, and stop after four. -/
def specSelect : Nat → List String → List String
  | _, [] => []
  | 0, _ :: _ => []
  | n + 1, p :: rest =>
    if 40 < (clean p).length then clean p :: specSelect n rest
    else specSelect (n + 1) rest

/-- A parsed detail page as BeautifulSoup exposes it to
`fetch_report_detail`: the text of the first `h1` (when one exists), the
text of the `title` element (when one exists), the paragraph texts inside
the `main` region (`none` when the page has no `main`), and the paragraph
texts of the whole document. -/
structure Soup where
  h1 : Option String
  titleTag : Option String
  mainPs : Option (List String)
  allPs : List String
deriving DecidableEq, Repr

/-- `soup.select_one("main") or soup` followed by `main.select("p")`. -/
def soupParagraphs (s : Soup) : List String := s.mainPs.getD s.allPs

/-- `" | ATSB"` as a character list. -/
def atsbSuffix : List Char := [' ', '|', ' ', 'A', 'T', 'S', 'B']

/-- Fuel-indexed body of `str.replace(" | ATSB", "")`: scan left to right,
removing each non-overlapping occurrence. Each step consumes at least one
character, so `l.length` fuel always suffices. -/
def dropAtsbFuel : Nat → List Char → List Char
  | 0, l => l
  | _ + 1, [] => []
  | n + 1, c :: rest =>
    if headMatch atsbSuffix (c :: rest) then dropAtsbFuel n (rest.drop 6)
    else c :: dropAtsbFuel n rest

/-- `.replace(" | ATSB", "")` of the source (Python `replace` removes
every occurrence, not only a trailing one). -/
def dropAtsb (s : String) : String := String.mk (dropAtsbFuel s.toList.length s.toList)

/-- The pure extraction step of `fetch_report_detail`:
`(soup.select_one("h1") or soup.select_one("title"))` picks the heading
with the title element as fallback; when both are absent the Python code
calls `.get_text` on `None` and raises `AttributeError`, modelled as
`none`.  On success the pair is the cleaned, suffix-stripped title and
the excerpt. -/
def detailExtract (s : Soup) : Option (String × String) :=
  match s.h1 <|> s.titleTag with
  | none => none
  | some raw => some (dropAtsb (clean raw), extract_summary_text (soupParagraphs s))

/-- The file-system side effects of one run of `main`. -/
structure RunEffects where
  dirsCreated : List String
  filesWritten : List String
  exitOk : Bool
deriving DecidableEq, Repr

/-- The sequential detail-fetch loop
`[fetch_report_detail(item) for item in listing]`: the first failing
fetch propagates and aborts the comprehension. -/
def fetchDetails (fetch : ReportItem → Except Unit ReportItem) :
    List ReportItem → Except Unit (List ReportItem)
  | [] => .ok []
  | it :: rest =>
    match fetch it with
    | .error e => .error e
    | .ok d =>
      match fetchDetails fetch rest with
      | .error e => .error e
      | .ok ds => .ok (d :: ds)

/-- The four output files `main` writes, in write order. -/
def outputFiles : List String :=
  ["data/reports.csv", "data/reports.json", "outputs/insights.md", "outputs/dashboard.html"]

/-- The effect skeleton of `main`: create the two directories, fetch and
parse the listing (`parse_listing(limit=10)`, whose network fetch may
fail), fetch every detail page, and only then write the four output
files.  `listingFetch` is the outcome of fetching and row-parsing the
listing page; `detailFetch` the per-report detail fetch. -/
def runMain (listingFetch : Except Unit (List ReportItem))
    (detailFetch : ReportItem → Except Unit ReportItem) : RunEffects :=
  let dirs := ["data", "outputs"]
  match listingFetch with
  | .error _ => ⟨dirs, [], false⟩
  | .ok rows =>
    match fetchDetails detailFetch (listingStage rows 10) with
    | .error _ => ⟨dirs, [], false⟩
    | .ok _ => ⟨dirs, outputFiles, true⟩

theorem headMatch_iff (as : List Char) : ∀ bs, headMatch as bs = true ↔ ∃ r, bs = as ++ r := by
  induction as with
  | nil => intro bs; simp [headMatch]
  | cons a as ih =>
    intro bs
    cases bs with
    | nil => simp [headMatch]
    | cons b bs =>
      simp only [headMatch, Bool.and_eq_true, beq_iff_eq, ih bs]
      constructor
      · rintro ⟨rfl, r, rfl⟩; exact ⟨r, rfl⟩
      · rintro ⟨r, h⟩
        injection h with h1 h2
        exact ⟨h1.symm, r, h2⟩

theorem occursIn_iff (as : List Char) :
    ∀ bs, occursIn as bs = true ↔ ∃ l r, bs = l ++ as ++ r := by
  intro bs
  induction bs with
  | nil =>
    simp only [occursIn, headMatch_iff]
    constructor
    · rintro ⟨r, h⟩; exact ⟨[], r, by simpa using h⟩
    · rintro ⟨l, r, h⟩
      rcases List.append_eq_nil.mp (List.append_eq_nil.mp h.symm).1 with ⟨rfl, rfl⟩
      exact ⟨r, by simpa using h⟩
  | cons b bs ih =>
    simp only [occursIn, Bool.or_eq_true, headMatch_iff, ih]
    constructor
    · rintro (⟨r, h⟩ | ⟨l, r, h⟩)
      · exact ⟨[], r, by simpa using h⟩
      · exact ⟨b :: l, r, by simp [h]⟩
    · rintro ⟨l, r, h⟩
      cases l with
      | nil => exact Or.inl ⟨r, by simpa using h⟩
      | cons x l =>
        injection h with h1 h2
        exact Or.inr ⟨l, r, h2⟩

theorem occursIn_trans {a b c : List Char} (hab : occursIn a b = true)
    (hbc : occursIn b c = true) : occursIn a c = true := by
  rcases (occursIn_iff b c).mp hbc with ⟨l2, r2, rfl⟩
  rcases (occursIn_iff a b).mp hab with ⟨l, r, rfl⟩
  exact (occursIn_iff a _).mpr ⟨l2 ++ l, r ++ r2, by simp⟩

theorem subStr_trans {a b c : String} (hab : subStr a b = true)
    (hbc : subStr b c = true) : subStr a c = true :=
  occursIn_trans hab hbc

theorem firstLabel_eq_default (t : String) :
    ∀ m : List (String × List String), (∀ p ∈ m, matchesCat t p.2 = false) →
      firstLabel t m = "Other / undetermined"
  | [], _ => rfl
  | (label, kws) :: rest, h => by
    have h0 : matchesCat t kws = false := h (label, kws) (List.mem_cons_self _ _)
    simp only [firstLabel, h0, Bool.false_eq_true, if_false]
    exact firstLabel_eq_default t rest (fun p hp => h p (List.mem_cons_of_mem _ hp))

theorem firstLabel_eq_of_match (t : String) :
    ∀ (m : List (String × List String)) (i : Nat) (hi : i < m.length),
      matchesCat t (m.get ⟨i, hi⟩).2 = true →
      (∀ j (hj : j < i), matchesCat t (m.get ⟨j, Nat.lt_trans hj hi⟩).2 = false) →
      firstLabel t m = (m.get ⟨i, hi⟩).1 := by
  intro m
  induction m with
  | nil => intro i hi; exact absurd hi (Nat.not_lt_zero i)
  | cons p rest ih =>
    intro i hi hmatch hearlier
    cases i with
    | zero =>
      obtain ⟨label, kws⟩ := p
      simp only [List.get] at hmatch ⊢
      simp [firstLabel, hmatch]
    | succ j =>
      have h0 : matchesCat t p.2 = false := hearlier 0 (Nat.succ_pos j)
      obtain ⟨label, kws⟩ := p
      simp only [List.get] at hmatch ⊢
      simp only [firstLabel, h0, Bool.false_eq_true, if_false]
      exact ih j (Nat.lt_of_succ_lt_succ hi) hmatch
        (fun j' hj' => hearlier (j' + 1) (Nat.succ_lt_succ hj'))

/-- C1 (amended): the cause classifier returns the first category, in the
fixed order of `causeMapping`, whose keyword list contains a substring of
the lower-cased text, and returns "Other / undetermined" when no keyword
of any category matches; in particular, a text containing both "runway"
and "engine" is classified "Mechanical / system issue" provided no
keyword of the three earlier categories (Collision with terrain, Near
collision / airprox, Ditching / water impact) matches. -/
theorem classify_cause_ordered_first_match (text : String) :
    ((∀ p ∈ causeMapping, matchesCat (lowerStr text) p.2 = false) →
      classify_cause text = "Other / undetermined")
    ∧ (∀ i (hi : i < causeMapping.length),
        matchesCat (lowerStr text) (causeMapping.get ⟨i, hi⟩).2 = true →
        (∀ j (hj : j < i),
          matchesCat (lowerStr text) (causeMapping.get ⟨j, Nat.lt_trans hj hi⟩).2 = false) →
        classify_cause text = (causeMapping.get ⟨i, hi⟩).1)
    ∧ (subStr "runway" (lowerStr text) = true → subStr "engine" (lowerStr text) = true →
        matchesCat (lowerStr text)
          ["collision with terrain", "controlled flight into terrain", "cfit"] = false →
        matchesCat (lowerStr text)
          ["near collision", "proximity event", "airprox", "midair"] = false →
        matchesCat (lowerStr text) ["ditching", "water"] = false →
        classify_cause text = "Mechanical / system issue") := by
  refine ⟨fun h => firstLabel_eq_default _ _ h,
    fun i hi hm he => firstLabel_eq_of_match _ _ i hi hm he, ?_⟩
  intro hrw heng h1 h2 h3
  have hi : (3 : Nat) < causeMapping.length := by decide
  have hm : matchesCat (lowerStr text) (causeMapping.get ⟨3, hi⟩).2 = true := by
    show matchesCat (lowerStr text)
      ["engine", "landing gear", "rotor", "foreign object", "f.o.d", "indication", "failure"]
      = true
    simp only [matchesCat, List.any_eq_true]
    exact ⟨"engine", by simp, heng⟩
  have he : ∀ j (hj : j < 3),
      matchesCat (lowerStr text) (causeMapping.get ⟨j, Nat.lt_trans hj hi⟩).2 = false := by
    intro j hj
    match j, hj with
    | 0, _ => exact h1
    | 1, _ => exact h2
    | 2, _ => exact h3
  exact firstLabel_eq_of_match _ _ 3 hi hm he

/-- C1 counterexample: "water on runway caused engine failure" contains
both "runway" and "engine", yet the classifier returns
"Ditching / water impact", not "Mechanical / system issue", because the
Ditching keyword "water" is checked first. -/
theorem classify_cause_runway_engine_not_mechanical :
    subStr "runway" (lowerStr "water on runway caused engine failure") = true
    ∧ subStr "engine" (lowerStr "water on runway caused engine failure") = true
    ∧ classify_cause "water on runway caused engine failure" ≠ "Mechanical / system issue"
    ∧ classify_cause "water on runway caused engine failure" = "Ditching / water impact" := by
  refine ⟨by decide, by decide, by decide, by decide⟩

/-- C1 witness: on "runway overrun after engine trouble" every hypothesis
of the amended in-particular clause holds, so the classifier returns
"Mechanical / system issue". -/
theorem classify_cause_ordered_first_match_witness :
    classify_cause "runway overrun after engine trouble" = "Mechanical / system issue" :=
  (classify_cause_ordered_first_match "runway overrun after engine trouble").2.2
    (by decide) (by decide) (by decide) (by decide) (by decide)

/-- C2: the severity classifier equals the ordered cascade the
specification describes — "fatal" → Fatal; else "serious injury" →
Serious injury; else "minor injury" or "injur" → Injury; else
"no injuries" or "no injury" → No injury; else Unknown.  The source's
extra disjunct `"sustained fatal injuries" in t` is redundant because any
text containing that phrase contains "fatal". -/
theorem classify_severity_eq_severitySpec (text : String) :
    classify_severity text = severitySpec text := by
  unfold classify_severity severitySpec
  cases hf : subStr "fatal" (lowerStr text) with
  | true => simp [hf]
  | false =>
    have hsf : subStr "sustained fatal injuries" (lowerStr text) = false := by
      cases h2 : subStr "sustained fatal injuries" (lowerStr text) with
      | false => rfl
      | true =>
        have h3 : subStr "fatal" (lowerStr text) = true := subStr_trans (by decide) h2
        rw [hf] at h3
        exact absurd h3 (by simp)
    simp [hf, hsf]

/-- C10: the severity classifier can never return "No injury" — any text
containing "no injuries" or "no injury" also contains the substring
"injur", so the earlier Injury rule already fires. -/
theorem classify_severity_never_no_injury (text : String) :
    classify_severity text ≠ "No injury" := by
  have key : (subStr "no injuries" (lowerStr text) || subStr "no injury" (lowerStr text)) = true →
      subStr "injur" (lowerStr text) = true := by
    intro h
    rcases Bool.or_eq_true_iff.mp h with h | h
    · exact subStr_trans (by decide) h
    · exact subStr_trans (by decide) h
  unfold classify_severity
  by_cases h1 :
      (subStr "fatal" (lowerStr text) || subStr "sustained fatal injuries" (lowerStr text)) = true
  · simp [h1]
  · simp only [Bool.not_eq_true] at h1
    by_cases h2 : subStr "serious injury" (lowerStr text) = true
    · simp [h1, h2]
    · simp only [Bool.not_eq_true] at h2
      by_cases h3 :
          (subStr "minor injury" (lowerStr text) || subStr "injur" (lowerStr text)) = true
      · simp [h1, h2, h3]
      · simp only [Bool.not_eq_true] at h3
        have h4 :
            (subStr "no injuries" (lowerStr text) || subStr "no injury" (lowerStr text)) = false := by
          cases h4 : (subStr "no injuries" (lowerStr text) || subStr "no injury" (lowerStr text)) with
          | false => rfl
          | true =>
            have hinj := key h4
            have : subStr "injur" (lowerStr text) = false :=
              (Bool.or_eq_false_iff.mp h3).2
            rw [hinj] at this
            exact absurd this (by simp)
        simp [h1, h2, h3, h4]

/-- C10 witness: a concrete text containing "no injuries" is classified
"Injury", not "No injury". -/
theorem classify_severity_never_no_injury_witness :
    classify_severity "there were no injuries" ≠ "No injury" :=
  classify_severity_never_no_injury "there were no injuries"

/-- C8: the operation type is a case-insensitive keyword scan of the
title in fixed priority order, first match winning: "helicopter" or a
helicopter-model token → Helicopter; else a transport-aircraft token →
Air transport; else "accredited representative" → International
assistance; else the default General aviation. -/
theorem parse_operation_type_priority (title : String) :
    ((subStr "helicopter" (lowerStr title)
        || ["r44", "aw139", "bell", "s-92"].any (fun x => subStr x (lowerStr title))) = true →
      parse_operation_type title = "Helicopter")
    ∧ ((subStr "helicopter" (lowerStr title)
        || ["r44", "aw139", "bell", "s-92"].any (fun x => subStr x (lowerStr title))) = false →
      ["airbus", "saab", "boeing", "a380"].any (fun x => subStr x (lowerStr title)) = true →
      parse_operation_type title = "Air transport")
    ∧ ((subStr "helicopter" (lowerStr title)
        || ["r44", "aw139", "bell", "s-92"].any (fun x => subStr x (lowerStr title))) = false →
      ["airbus", "saab", "boeing", "a380"].any (fun x => subStr x (lowerStr title)) = false →
      subStr "accredited representative" (lowerStr title) = true →
      parse_operation_type title = "International assistance")
    ∧ ((subStr "helicopter" (lowerStr title)
        || ["r44", "aw139", "bell", "s-92"].any (fun x => subStr x (lowerStr title))) = false →
      ["airbus", "saab", "boeing", "a380"].any (fun x => subStr x (lowerStr title)) = false →
      subStr "accredited representative" (lowerStr title) = false →
      parse_operation_type title = "General aviation") := by
  refine ⟨fun h1 => ?_, fun h1 h2 => ?_, fun h1 h2 h3 => ?_, fun h1 h2 h3 => ?_⟩ <;>
    unfold parse_operation_type
  · rw [if_pos h1]
  · rw [if_neg (by simpa using h1), if_pos h2]
  · rw [if_neg (by simpa using h1), if_neg (by simpa using h2), if_pos h3]
  · rw [if_neg (by simpa using h1), if_neg (by simpa using h2), if_neg (by simpa using h3)]

/-- C8 witness: an Airbus title that also names a helicopter model is
classified Helicopter because the helicopter rule is checked first. -/
theorem parse_operation_type_priority_witness :
    parse_operation_type "Airbus Helicopters AS350, near Cairns" = "Helicopter" :=
  (parse_operation_type_priority "Airbus Helicopters AS350, near Cairns").1 (by decide)

/-- C3: the listing stage output is ordered non-increasing by occurrence
date, a record whose date text failed to parse (`occurrence_date = none`)
being treated as having the minimum possible date (`getD 0`). -/
theorem listingStage_sorted_desc (items : List ReportItem) (limit : Nat) :
    List.Pairwise (fun a b => b.occurrence_date.getD 0 ≤ a.occurrence_date.getD 0)
      (listingStage items limit) := by
  have hs : List.Sorted laterFirst (List.insertionSort laterFirst (dedupItems items)) :=
    List.sorted_insertionSort laterFirst (dedupItems items)
  exact List.Pairwise.sublist (List.take_sublist limit _) hs

theorem mem_dictInsert {d : List (String × ReportItem)} {k : String} {v : ReportItem}
    {p : String × ReportItem} (hp : p ∈ dictInsert d k v) :
    (p.1 = k ∧ p.2 = v) ∨ (p.1 ≠ k ∧ p ∈ d) := by
  unfold dictInsert at hp
  by_cases hany : d.any (fun q => q.1 == k) = true
  · rw [if_pos hany] at hp
    rcases List.mem_map.mp hp with ⟨q, hq, rfl⟩
    by_cases hqk : (q.1 == k) = true
    · rw [if_pos hqk]
      exact Or.inl ⟨by simpa using hqk, rfl⟩
    · rw [if_neg hqk]
      exact Or.inr ⟨by simpa using hqk, hq⟩
  · rw [if_neg hany] at hp
    rcases List.mem_append.mp hp with hq | hq
    · have h2 : p.1 ≠ k := by
        intro he
        apply hany
        rw [List.any_eq_true]
        exact ⟨p, hq, by simp [he]⟩
      exact Or.inr ⟨h2, hq⟩
    · rcases List.mem_singleton.mp hq with rfl
      exact Or.inl ⟨rfl, rfl⟩

/-- Every value of the de-duplication dict is stored under its own
report number. -/
theorem foldl_dict_keyed :
    ∀ (rest : List ReportItem) (d : List (String × ReportItem)),
      (∀ p ∈ d, p.2.report_no = p.1) →
      ∀ p ∈ rest.foldl (fun d it => dictInsert d it.report_no it) d, p.2.report_no = p.1
  | [], d, hd => hd
  | x :: xs, d, hd => by
    intro p hp
    refine foldl_dict_keyed xs (dictInsert d x.report_no x) ?_ p hp
    intro q hq
    rcases mem_dictInsert hq with ⟨h1, h2⟩ | ⟨_, hq⟩
    · rw [h2, h1]
    · exact hd q hq

/-- The key list of the de-duplication dict stays duplicate-free. -/
theorem foldl_dict_nodup_keys :
    ∀ (rest : List ReportItem) (d : List (String × ReportItem)),
      (d.map Prod.fst).Nodup →
      ((rest.foldl (fun d it => dictInsert d it.report_no it) d).map Prod.fst).Nodup
  | [], _, hd => hd
  | x :: xs, d, hd => by
    refine foldl_dict_nodup_keys xs (dictInsert d x.report_no x) ?_
    unfold dictInsert
    by_cases hany : d.any (fun q => q.1 == x.report_no) = true
    · rw [if_pos hany]
      have hsame : (d.map (fun p => if p.1 == x.report_no then (p.1, x) else p)).map Prod.fst
          = d.map Prod.fst := by
        rw [List.map_map]
        refine List.map_congr_left ?_
        intro p _
        simp only [Function.comp_apply]
        split <;> rfl
      rw [hsame]; exact hd
    · rw [if_neg hany, List.map_append]
      have hfresh : x.report_no ∉ d.map Prod.fst := by
        intro hmem
        rcases List.mem_map.mp hmem with ⟨q, hq, hq2⟩
        apply hany
        rw [List.any_eq_true]
        exact ⟨q, hq, by simp [hq2]⟩
      simp [List.nodup_append, hd, hfresh]

theorem getLast?_cons_of_getLast? {α : Type} {l : List α} {v : α}
    (h : l.getLast? = some v) (x : α) : (x :: l).getLast? = some v := by
  cases l with
  | nil => simp at h
  | cons y l => rw [List.getLast?_cons_cons]; exact h

/-- Last write wins inside the de-duplication fold: a pair in the final
dict either records the last row of the remaining input with its key, or
the remaining input never touches its key and the pair was already in the
accumulator. -/
theorem foldl_dict_last_wins :
    ∀ (rest : List ReportItem) (d : List (String × ReportItem))
      (p : String × ReportItem),
      p ∈ rest.foldl (fun d it => dictInsert d it.report_no it) d →
      (rest.filter (fun it => it.report_no == p.1)).getLast? = some p.2
      ∨ ((rest.filter (fun it => it.report_no == p.1)) = [] ∧ p ∈ d)
  | [], d, p, hp => Or.inr ⟨rfl, hp⟩
  | x :: xs, d, p, hp => by
    rcases foldl_dict_last_wins xs (dictInsert d x.report_no x) p hp with h | ⟨hnil, hmem⟩
    · left
      rw [List.filter_cons]
      split
      · exact getLast?_cons_of_getLast? h x
      · exact h
    · rcases mem_dictInsert hmem with ⟨h1, h2⟩ | ⟨h1, h2⟩
      · left
        have hx : (x.report_no == p.1) = true := by simp [h1]
        rw [List.filter_cons, if_pos (by simpa using hx), hnil, h2]
        simp
      · right
        have hx : (x.report_no == p.1) = false := by
          simp only [beq_eq_false_iff_ne, ne_eq]
          exact fun he => h1 (he ▸ rfl)
        constructor
        · rw [List.filter_cons, if_neg (by simp [hx]), hnil]
        · exact h2

/-- Each record surviving de-duplication is exactly the last listing row
bearing its report number. -/
theorem dedupItems_last_wins (items : List ReportItem) :
    ∀ r ∈ dedupItems items,
      (items.filter (fun it => it.report_no == r.report_no)).getLast? = some r := by
  intro r hr
  unfold dedupItems at hr
  rcases List.mem_map.mp hr with ⟨p, hp, rfl⟩
  have hkey : p.2.report_no = p.1 := foldl_dict_keyed items [] (by simp) p hp
  rcases foldl_dict_last_wins items [] p hp with h | ⟨_, habs⟩
  · rw [hkey]; exact h
  · simp at habs

/-- De-duplication leaves no two records with the same report number. -/
theorem dedupItems_nodup_keys (items : List ReportItem) :
    List.Pairwise (fun a b => a.report_no ≠ b.report_no) (dedupItems items) := by
  unfold dedupItems
  have hnd : ((items.foldl (fun d it => dictInsert d it.report_no it) []).map Prod.fst).Nodup :=
    foldl_dict_nodup_keys items [] (by simp)
  have hkeyed := foldl_dict_keyed items [] (by simp)
  have hnd2 : (items.foldl (fun d it => dictInsert d it.report_no it) []).Pairwise
      (fun p q => p.1 ≠ q.1) := by
    have h3 : ((items.foldl (fun d it => dictInsert d it.report_no it) []).map
        Prod.fst).Pairwise (fun a b => a ≠ b) := hnd
    rw [List.pairwise_map] at h3
    exact h3
  rw [List.pairwise_map]
  refine hnd2.imp_of_mem ?_
  intro p q hp hq hne
  rw [hkeyed p hp, hkeyed q hq]
  exact hne

/-- C4: the listing-stage result contains no two records with the same
report identifier, and every retained record is exactly the last
listing row bearing its identifier (last-write-wins). -/
theorem listingStage_dedup_last_wins (items : List ReportItem) (limit : Nat) :
    List.Pairwise (fun a b => a.report_no ≠ b.report_no) (listingStage items limit)
    ∧ ∀ r ∈ listingStage items limit,
        (items.filter (fun it => it.report_no == r.report_no)).getLast? = some r := by
  constructor
  · have hperm := List.perm_insertionSort laterFirst (dedupItems items)
    have hpair := (List.Perm.pairwise_iff (fun h => Ne.symm h) hperm).mpr
      (dedupItems_nodup_keys items)
    exact List.Pairwise.sublist (List.take_sublist _ _) hpair
  · intro r hr
    have h1 : r ∈ List.insertionSort laterFirst (dedupItems items) :=
      (List.take_sublist _ _).subset hr
    have h2 : r ∈ dedupItems items :=
      (List.perm_insertionSort laterFirst (dedupItems items)).subset h1
    exact dedupItems_last_wins items r h2

/-- C4 witness: with two rows sharing "AO-1", the single retained record
is the later row. -/
theorem listingStage_dedup_last_wins_witness :
    (List.filter (fun it => it.report_no == "AO-1")
        [ReportItem.mk "AO-1" "t1" "u1" (some 5) "d1" "s1",
         ReportItem.mk "AO-1" "t2" "u2" (some 7) "d2" "s2"]).getLast?
      = some (ReportItem.mk "AO-1" "t2" "u2" (some 7) "d2" "s2") :=
  (listingStage_dedup_last_wins
      [ReportItem.mk "AO-1" "t1" "u1" (some 5) "d1" "s1",
       ReportItem.mk "AO-1" "t2" "u2" (some 7) "d2" "s2"] 10).2
    (ReportItem.mk "AO-1" "t2" "u2" (some 7) "d2" "s2") (by decide)

/-- With pairwise-distinct report numbers, de-duplication is the
identity. -/
theorem dedupItems_eq_self_aux :
    ∀ (rest : List ReportItem) (d : List (String × ReportItem)),
      (∀ it ∈ rest, ∀ p ∈ d, p.1 ≠ it.report_no) →
      List.Pairwise (fun a b => a.report_no ≠ b.report_no) rest →
      rest.foldl (fun d it => dictInsert d it.report_no it) d
        = d ++ rest.map (fun it => (it.report_no, it))
  | [], d, _, _ => by simp
  | x :: xs, d, hdis, hpair => by
    have hany : (d.any (fun q => q.1 == x.report_no)) = false := by
      rw [List.any_eq_false]
      intro q hq
      simpa using hdis x (List.mem_cons_self x xs) q hq
    have hstep : dictInsert d x.report_no x = d ++ [(x.report_no, x)] := by
      unfold dictInsert
      rw [if_neg (by simp [hany])]
    rw [List.foldl_cons, hstep,
      dedupItems_eq_self_aux xs (d ++ [(x.report_no, x)]) ?_ (List.Pairwise.of_cons hpair)]
    · simp
    · intro it hit p hp
      rcases List.mem_append.mp hp with hp | hp
      · exact hdis it (List.mem_cons_of_mem x hit) p hp
      · rcases List.mem_singleton.mp hp with rfl
        exact (List.rel_of_pairwise_cons hpair hit)

theorem dedupItems_eq_self (items : List ReportItem)
    (h : List.Pairwise (fun a b => a.report_no ≠ b.report_no) items) :
    dedupItems items = items := by
  unfold dedupItems
  rw [dedupItems_eq_self_aux items [] (by simp) h]
  simp only [List.nil_append, List.map_map]
  have hid : (Prod.snd ∘ fun it : ReportItem => (it.report_no, it)) = id := rfl
  rw [hid]
  exact List.map_id items

/-- C5 (amended): a listing producing M raw candidate rows with
pairwise-distinct report identifiers and M greater than the requested
limit N yields a result set of exactly N records. -/
theorem listingStage_length_of_nodup (items : List ReportItem) (limit : Nat)
    (hlen : limit < items.length)
    (hkeys : List.Pairwise (fun a b => a.report_no ≠ b.report_no) items) :
    (listingStage items limit).length = limit := by
  unfold listingStage
  rw [List.length_take, dedupItems_eq_self items hkeys,
    (List.perm_insertionSort laterFirst items).length_eq]
  exact Nat.min_eq_left (Nat.le_of_lt hlen)

/-- C5 counterexample: three raw candidate rows sharing the identifier
"AO-1" with limit 2 give one record, not two — M > N raw candidates do
not guarantee exactly N results. -/
theorem listingStage_length_counterexample :
    (2 : Nat) <
      (([ReportItem.mk "AO-1" "t1" "u1" (some 5) "d1" "s1",
         ReportItem.mk "AO-1" "t2" "u2" (some 7) "d2" "s2",
         ReportItem.mk "AO-1" "t3" "u3" (some 9) "d3" "s3"] : List ReportItem)).length
    ∧ (listingStage
        [ReportItem.mk "AO-1" "t1" "u1" (some 5) "d1" "s1",
         ReportItem.mk "AO-1" "t2" "u2" (some 7) "d2" "s2",
         ReportItem.mk "AO-1" "t3" "u3" (some 9) "d3" "s3"] 2).length = 1 := by
  refine ⟨by decide, by decide⟩

/-- C5 witness: three rows with distinct identifiers and limit 2 give
exactly 2 records. -/
theorem listingStage_length_of_nodup_witness :
    (listingStage
        [ReportItem.mk "AO-1" "t1" "u1" (some 5) "d1" "s1",
         ReportItem.mk "AO-2" "t2" "u2" (some 7) "d2" "s2",
         ReportItem.mk "AO-3" "t3" "u3" (some 9) "d3" "s3"] 2).length = 2 :=
  listingStage_length_of_nodup
    [ReportItem.mk "AO-1" "t1" "u1" (some 5) "d1" "s1",
     ReportItem.mk "AO-2" "t2" "u2" (some 7) "d2" "s2",
     ReportItem.mk "AO-3" "t3" "u3" (some 9) "d3" "s3"] 2 (by decide) (by decide)

theorem specSelect_eq_filter_take :
    ∀ (l : List String) (n : Nat),
      ((l.map clean).filter (fun p => 40 < p.length)).take n = specSelect n l
  | [], n => by cases n <;> rfl
  | p :: rest, n => by
    rw [List.map_cons, List.filter_cons]
    by_cases hlen : 40 < (clean p).length
    · rw [if_pos (by simpa using hlen)]
      cases n with
      | zero => rfl
      | succ m =>
        rw [List.take_succ_cons, specSelect_eq_filter_take rest m]
        simp [specSelect, hlen]
    · rw [if_neg (by simpa using hlen)]
      cases n with
      | zero => rfl
      | succ m =>
        rw [specSelect_eq_filter_take rest (m + 1)]
        simp [specSelect, hlen]

theorem specSelect_long : ∀ (n : Nat) (l : List String) (q : String),
    q ∈ specSelect n l → 40 < q.length
  | _, [], _ => by intro h; simp [specSelect] at h
  | 0, _ :: _, _ => by intro h; simp [specSelect] at h
  | n + 1, p :: rest, q => by
    intro hq
    unfold specSelect at hq
    by_cases hlen : 40 < (clean p).length
    · rw [if_pos hlen] at hq
      rcases List.mem_cons.mp hq with rfl | hq
      · exact hlen
      · exact specSelect_long n rest q hq
    · rw [if_neg hlen] at hq
      exact specSelect_long (n + 1) rest q hq

theorem specSelect_length_le : ∀ (n : Nat) (l : List String),
    (specSelect n l).length ≤ n
  | _, [] => by simp [specSelect]
  | 0, _ :: _ => by simp [specSelect]
  | n + 1, p :: rest => by
    unfold specSelect
    by_cases hlen : 40 < (clean p).length
    · rw [if_pos hlen]
      exact Nat.succ_le_succ (specSelect_length_le n rest)
    · rw [if_neg hlen]
      exact specSelect_length_le (n + 1) rest

/-- Shared helper: when every normalized paragraph is at most 40
characters long, the excerpt is empty. -/
theorem extract_summary_text_empty (ps : List String)
    (h : ∀ p ∈ ps, (clean p).length ≤ 40) : extract_summary_text ps = "" := by
  unfold extract_summary_text
  have hfil : (ps.map clean).filter (fun p => 40 < p.length) = [] := by
    rw [List.filter_eq_nil_iff]
    intro q hq
    rcases List.mem_map.mp hq with ⟨p, hp, rfl⟩
    simpa using Nat.not_lt.mpr (h p hp)
  rw [hfil]
  rfl

/-- C6: the excerpt consists of exactly the first at-most-4 paragraphs
whose whitespace-normalized text is strictly longer than 40 characters,
in source order, joined by a blank line; no short paragraph is selected,
at most 4 are, and when none qualifies the excerpt is the empty
string. -/
theorem extract_summary_text_spec (ps : List String) :
    extract_summary_text ps = String.intercalate "\n\n" (specSelect 4 ps)
    ∧ (∀ q ∈ specSelect 4 ps, 40 < q.length)
    ∧ (specSelect 4 ps).length ≤ 4
    ∧ ((∀ p ∈ ps, (clean p).length ≤ 40) → extract_summary_text ps = "") := by
  refine ⟨?_, fun q hq => specSelect_long 4 ps q hq, specSelect_length_le 4 ps,
    fun h => extract_summary_text_empty ps h⟩
  unfold extract_summary_text
  rw [specSelect_eq_filter_take ps 4]

/-- C6 witness: two boilerplate-short paragraphs produce the empty
excerpt. -/
theorem extract_summary_text_spec_witness :
    extract_summary_text ["Home", "  Contact   us  "] = "" :=
  (extract_summary_text_spec ["Home", "  Contact   us  "]).2.2.2 (by decide)

/-- C7 (amended): missing optional HTML elements are recovered locally —
with no main region the whole document is scanned, with no qualifying
paragraphs the excerpt is empty, and with no level-1 heading the title
falls back to the page's title element; detail extraction succeeds for a
page lacking any of these elements provided the page still has a level-1
heading or a title element (when both are absent, the source calls
`.get_text` on `None` and raises). -/
theorem detailExtract_recovers (s : Soup) :
    (s.mainPs = none → soupParagraphs s = s.allPs)
    ∧ ((∀ p ∈ soupParagraphs s, (clean p).length ≤ 40) →
        ∀ t e, detailExtract s = some (t, e) → e = "")
    ∧ (∀ t, s.h1 = none → s.titleTag = some t →
        detailExtract s = some (dropAtsb (clean t), extract_summary_text (soupParagraphs s)))
    ∧ ((s.h1.isSome ∨ s.titleTag.isSome) → (detailExtract s).isSome) := by
  refine ⟨fun h => by simp [soupParagraphs, h], ?_, ?_, ?_⟩
  · intro hshort t e hsome
    unfold detailExtract at hsome
    cases hor : s.h1 <|> s.titleTag with
    | none => rw [hor] at hsome; exact absurd hsome (by simp)
    | some raw =>
      rw [hor] at hsome
      have he : e = extract_summary_text (soupParagraphs s) := by
        have := (Option.some.injEq _ _).mp hsome
        exact (Prod.mk.injEq _ _ _ _).mp this.symm |>.2
      rw [he]
      exact extract_summary_text_empty _ hshort
  · intro t h1 ht
    unfold detailExtract
    rw [h1, ht]
    rfl
  · intro hor
    unfold detailExtract
    cases h1 : s.h1 with
    | some v => simp [h1]
    | none =>
      cases ht : s.titleTag with
      | some v => simp [h1, ht]
      | none =>
        rw [h1, ht] at hor
        simp at hor

/-- C7 counterexample: a detail page with no level-1 heading and no
title element makes extraction fail (the source raises
`AttributeError`), so missing optional elements are not always
recoverable. -/
theorem detailExtract_counterexample :
    detailExtract
      (Soup.mk none none none
        ["a narrative paragraph that is certainly longer than forty characters"]) = none := by
  rfl

/-- C7 witness: a page lacking the main region, any qualifying
paragraph and the level-1 heading still extracts, falling back to the
title element and an empty excerpt. -/
theorem detailExtract_recovers_witness :
    detailExtract (Soup.mk none (some "Final report | ATSB") none ["Home"])
      = some (dropAtsb (clean "Final report | ATSB"),
          extract_summary_text
            (soupParagraphs (Soup.mk none (some "Final report | ATSB") none ["Home"]))) :=
  (detailExtract_recovers (Soup.mk none (some "Final report | ATSB") none ["Home"])).2.2.1
    "Final report | ATSB" rfl rfl

/-- The sequential detail-fetch loop fails as soon as any listed item's
fetch fails. -/
theorem fetchDetails_error_of_mem (fetch : ReportItem → Except Unit ReportItem) :
    ∀ (l : List ReportItem) (it : ReportItem), it ∈ l → fetch it = .error () →
      fetchDetails fetch l = .error ()
  | [], it, hmem, _ => absurd hmem (List.not_mem_nil it)
  | x :: xs, it, hmem, herr => by
    unfold fetchDetails
    rcases List.mem_cons.mp hmem with rfl | hmem
    · rw [herr]
    · cases hx : fetch x with
      | error e => cases e; rfl
      | ok d => rw [fetchDetails_error_of_mem fetch xs it hmem herr]

/-- C9: when the listing fetch or any detail fetch fails, the run aborts
having written no output file; the only remaining side effect is the
creation of the two output directories. -/
theorem runMain_no_output_on_failure
    (listingFetch : Except Unit (List ReportItem))
    (detailFetch : ReportItem → Except Unit ReportItem)
    (hfail : listingFetch = .error ()
      ∨ ∃ rows, listingFetch = .ok rows
          ∧ ∃ it ∈ listingStage rows 10, detailFetch it = .error ()) :
    (runMain listingFetch detailFetch).filesWritten = []
    ∧ (runMain listingFetch detailFetch).dirsCreated = ["data", "outputs"]
    ∧ (runMain listingFetch detailFetch).exitOk = false := by
  rcases hfail with rfl | ⟨rows, rfl, it, hmem, herr⟩
  · exact ⟨rfl, rfl, rfl⟩
  · have hfd := fetchDetails_error_of_mem detailFetch (listingStage rows 10) it hmem herr
    unfold runMain
    simp only [hfd]
    exact ⟨trivial, trivial, trivial⟩

/-- C9 witness: a failing listing fetch leaves only the two directories
created. -/
theorem runMain_no_output_on_failure_witness :
    (runMain (.error ()) (fun it => .ok it)).filesWritten = []
    ∧ (runMain (.error ()) (fun it => .ok it)).dirsCreated = ["data", "outputs"]
    ∧ (runMain (.error ()) (fun it => .ok it)).exitOk = false :=
  runMain_no_output_on_failure (.error ()) (fun it => .ok it) (Or.inl rfl)
